import Mathlib

set_option maxHeartbeats 1000000

/-!
Shallow embedding of the batch translation engine of the ai-excel-translator
repository (src/translators.py, src/processor/excel_processor.py,
src/processor/docx_processor.py, src/constants.py).

The remote translation service is abstracted as an oracle mapping the index of
the remote call (the number of requests issued so far) and the texts of the
request to a response: a parsed JSON list, an unparseable-JSON signal (a
ValueError that is not a count mismatch), or a generic exception (optionally
carrying the quota-exhaustion signature).  Blocking sleeps are recorded as an
event trace instead of real delays.  Recursion depth of the Python call stack
is modelled by a fuel parameter: a result of `none` means the computation did
not complete within the given fuel, and `∀ fuel, ... = none` means the Python
code never terminates on that input.
-/

/- Constants from src/constants.py. -/

def MAX_TOKENS_PER_REQUEST : Nat := 400

def MAX_RETRIES : Nat := 10

def CHARS_PER_TOKEN : Nat := 4

def TRANSLATION_DELIMITER : String := "|//|"

/- `GeminiTranslator._preprocess_text`: re.sub(r"\n+", "\n", ·), then
re.sub(r"\t+", "\t", ·), then str.strip() (ASCII whitespace). -/

def isPyWhitespace (c : Char) : Bool :=
  c == ' ' || c == '\t' || c == '\n' || c == '\r' || c == Char.ofNat 11 || c == Char.ofNat 12

def collapseRuns (c : Char) : List Char → List Char
  | [] => []
  | [a] => [a]
  | a :: b :: rest =>
    if a == c && b == c then collapseRuns c (b :: rest)
    else a :: collapseRuns c (b :: rest)

def pyStrip (l : List Char) : List Char :=
  ((l.dropWhile isPyWhitespace).reverse.dropWhile isPyWhitespace).reverse

def preprocessText (s : String) : String :=
  String.mk (pyStrip (collapseRuns '\t' (collapseRuns '\n' s.data)))

/- Sleep events: sleep(REQUEST_DELAY) (0.5s), sleep(QUOTA_EXHAUST_ERROR_DELAY)
(10s), sleep(RETRY_DELAY) (1s). -/

inductive SleepEv
  | request
  | quotaBackoff
  | retry
deriving DecidableEq

/- One remote response, as seen by `_call_translation_api`:
`ok ts` — generate_content succeeded and response.text parsed as the JSON list
`ts` (the count check happens afterwards in the client);
`badJson` — response.text was not parseable JSON (json.loads raises a
ValueError that does not contain "Translation count mismatch");
`err q` — generate_content raised a generic exception, with `q` true when the
message contains the quota-exhaustion signature "429 Resource has been
exhausted". -/

inductive RemoteResp
  | ok (ts : List String)
  | badJson
  | err (isQuota : Bool)
deriving DecidableEq

abbrev Oracle := Nat → List String → RemoteResp

structure ApiState where
  requests : List (List String)
  trace : List SleepEv
deriving DecidableEq

/- Outcome of `_call_translation_api`: a returned list, a returned `None`
(retry exhaustion), or an exception escaping the function. -/

inductive CallResult
  | ok (res : List String)
  | failed
  | raised
deriving DecidableEq

/- `GeminiTranslator._call_translation_api` (src/translators.py:68-116).
The second `Nat` is the number of loop iterations still available
(`MAX_RETRIES - attempt`); `attempt == MAX_RETRIES - 1` is `al = 0` after the
pattern `al + 1`.  On a count mismatch the input is split at `len // 2` and the
function recurses on both halves; a half that returned `None` makes the `+` on
line 99 raise a TypeError, which escapes the function (it is raised inside the
`except ValueError` handler). -/

def callApiGo (oracle : Oracle) : Nat → Nat → List String → ApiState →
    Option (CallResult × ApiState)
  | 0, _, _, _ => none
  | _ + 1, 0, _, st => some (.failed, st)
  | fuel + 1, al + 1, texts, st =>
    match oracle st.requests.length texts with
    | .ok ts =>
      let st2 : ApiState := ⟨st.requests ++ [texts], st.trace ++ [.request]⟩
      if ts.length = texts.length then
        some (.ok ts, st2)
      else
        let m := texts.length / 2
        match callApiGo oracle fuel MAX_RETRIES (texts.take m) st2 with
        | none => none
        | some (.raised, st3) => some (.raised, st3)
        | some (.ok l1, st3) =>
          match callApiGo oracle fuel MAX_RETRIES (texts.drop m) st3 with
          | none => none
          | some (.raised, st4) => some (.raised, st4)
          | some (.ok l2, st4) => some (.ok (l1 ++ l2), st4)
          | some (.failed, st4) => some (.raised, st4)
        | some (.failed, st3) =>
          match callApiGo oracle fuel MAX_RETRIES (texts.drop m) st3 with
          | none => none
          | some (_, st4) => some (.raised, st4)
    | .badJson =>
      some (.ok (List.replicate texts.length ""), ⟨st.requests ++ [texts], st.trace⟩)
    | .err isQuota =>
      let st2 : ApiState := ⟨st.requests ++ [texts],
        st.trace ++ (if isQuota then [.quotaBackoff] else [])⟩
      if al = 0 then some (.failed, st2)
      else callApiGo oracle fuel al texts ⟨st2.requests, st2.trace ++ [.retry]⟩

def callApi (oracle : Oracle) (fuel : Nat) (texts : List String) (st : ApiState) :
    Option (CallResult × ApiState) :=
  callApiGo oracle fuel MAX_RETRIES texts st

/- The translation cache `self.translation_cache`, a Python dict keyed by
(preprocessed text, target language); modelled as an association list where the
most recent write is at the head. -/

abbrev Cache := List ((String × String) × String)

def cacheLookup : Cache → String × String → Option String
  | [], _ => none
  | (k, v) :: rest, key => if k = key then some v else cacheLookup rest key

structure TransState where
  cache : Cache
  api : ApiState
deriving DecidableEq

def initApi : ApiState := ⟨[], []⟩

def initTrans : TransState := ⟨[], initApi⟩

/- `GeminiTranslator._get_cached_translations` (src/translators.py:57-66):
returns (uncached_indices, uncached_texts, translations). -/

def getCachedGo (cache : Cache) (lang : String) :
    Nat → List String → List Nat × List String × List (Option String)
  | _, [] => ([], [], [])
  | i, t :: rest =>
    let r := getCachedGo cache lang (i + 1) rest
    match cacheLookup cache (t, lang) with
    | some v => (r.1, r.2.1, some v :: r.2.2)
    | none => (i :: r.1, t :: r.2.1, none :: r.2.2)

def getCachedTranslations (cache : Cache) (lang : String) (texts : List String) :
    List Nat × List String × List (Option String) :=
  getCachedGo cache lang 0 texts

/- The success loop of `translate_batch` (src/translators.py:45-51): for each
returned translation, store it in the cache under (uncached_texts[i], lang) and
write it into translations[uncached_indices[i]].  `false` in the result marks
the IndexError raised when new_translations is longer than uncached_indices
(the cache writes made before the error are kept, as in Python). -/

def applyNew (lang : String) : List Nat → List String → List String → Cache →
    List (Option String) → Bool × Cache × List (Option String)
  | _, _, [], c, slots => (true, c, slots)
  | i :: irest, t :: ts, nt :: nts, c, slots =>
    applyNew lang irest ts nts (((t, lang), nt) :: c) (slots.set i (some nt))
  | _, _, _ :: _, c, slots => (false, c, slots)

/- `GeminiTranslator._handle_failed_translations` (src/translators.py:118-124):
for each uncached index whose slot is still None, fill in the preprocessed
source text. -/

def handleFailed (pre : List String) : List Nat → List (Option String) → List (Option String)
  | [], slots => slots
  | i :: irest, slots =>
    handleFailed pre irest
      (match slots[i]? with
       | some none => slots.set i (some (pre.getD i ""))
       | _ => slots)

/- Outcome of `translate_batch`: the returned translations list (slots still
`none` would be Python `None` entries), or an exception escaping the method. -/

inductive BatchResult
  | ok (res : List (Option String))
  | raised
deriving DecidableEq

/- `GeminiTranslator.translate_batch` (src/translators.py:27-55).  Note that
`if new_translations:` treats both `None` and the empty list as falsy. -/

def translateBatch (oracle : Oracle) (fuel : Nat) (texts : List String) (lang : String)
    (st : TransState) : Option (BatchResult × TransState) :=
  if texts = [] then some (.ok [], st)
  else
    let pre := texts.map preprocessText
    let r := getCachedTranslations st.cache lang pre
    if r.2.1 = [] then some (.ok r.2.2, st)
    else
      match callApi oracle fuel r.2.1 st.api with
      | none => none
      | some (.raised, api2) => some (.raised, ⟨st.cache, api2⟩)
      | some (.failed, api2) => some (.ok (handleFailed pre r.1 r.2.2), ⟨st.cache, api2⟩)
      | some (.ok newTs, api2) =>
        if newTs = [] then some (.ok (handleFailed pre r.1 r.2.2), ⟨st.cache, api2⟩)
        else
          match applyNew lang r.1 r.2.1 newTs st.cache r.2.2 with
          | (true, c2, slots2) => some (.ok slots2, ⟨c2, api2⟩)
          | (false, c2, _) => some (.raised, ⟨c2, api2⟩)

/- `ExcelProcessor.estimate_tokens` (src/processor/excel_processor.py:34-37):
len(text) // CHARS_PER_TOKEN. -/

def estimateTokensExcel (text : String) : Nat :=
  text.length / CHARS_PER_TOKEN

/- `DocxProcessor.estimate_tokens` (src/processor/docx_processor.py:25-31):
math.ceil(len(text) / CHARS_PER_TOKEN) if CHARS_PER_TOKEN > 0 else len(text);
on naturals math.ceil(n / 4) is (n + 4 - 1) / 4. -/

def estimateTokensDocx (text : String) : Nat :=
  if CHARS_PER_TOKEN > 0 then (text.length + CHARS_PER_TOKEN - 1) / CHARS_PER_TOKEN
  else text.length

/- `ExcelProcessor.create_batches` (src/processor/excel_processor.py:39-58).
The per-unit cost estimates the text with the delimiter appended. -/

def excelCost (t : String) : Nat :=
  estimateTokensExcel (t ++ TRANSLATION_DELIMITER)

def createBatchesExcelGo : List (List String) → List String → Nat → List String →
    List (List String)
  | batches, cur, _, [] => if cur = [] then batches else batches ++ [cur]
  | batches, cur, curTok, t :: rest =>
    let tt := excelCost t
    if curTok + tt > MAX_TOKENS_PER_REQUEST then
      createBatchesExcelGo (if cur = [] then batches else batches ++ [cur]) [t] tt rest
    else
      createBatchesExcelGo batches (cur ++ [t]) (curTok + tt) rest

def createBatchesExcel (texts : List String) : List (List String) :=
  createBatchesExcelGo [] [] 0 texts

/- `DocxProcessor.create_batches` (src/processor/docx_processor.py:33-65),
over (original_index, text) tuples; a batch is closed only when it is
non-empty and adding the next unit would exceed the limit, and the unit is
then always added to the (possibly fresh) current batch. -/

def docxCost (u : Nat × String) : Nat :=
  estimateTokensDocx u.2

def createBatchesDocxGo : List (List (Nat × String)) → List (Nat × String) → Nat →
    List (Nat × String) → List (List (Nat × String))
  | batches, cur, _, [] => if cur = [] then batches else batches ++ [cur]
  | batches, cur, curTok, u :: rest =>
    let tok := docxCost u
    if curTok + tok > MAX_TOKENS_PER_REQUEST ∧ cur ≠ [] then
      createBatchesDocxGo (batches ++ [cur]) [u] tok rest
    else
      createBatchesDocxGo batches (cur ++ [u]) (curTok + tok) rest

def createBatchesDocx (items : List (Nat × String)) : List (List (Nat × String)) :=
  createBatchesDocxGo [] [] 0 items

/- Concrete remote behaviours used in the claims. -/

def tooShortOracle : Oracle := fun _ _ => .ok []

def mixedOracle : Oracle := fun i _ => if i = 0 then .ok ["x"] else .err false

def alwaysErrOracle : Oracle := fun _ _ => .err false

def alwaysQuotaOracle : Oracle := fun _ _ => .err true

def badJsonOracle : Oracle := fun _ _ => .badJson

def tagOracle (tag : String → String) : Oracle := fun _ ts => .ok (ts.map tag)

/- The folded effect of the cache-storing loop of `translate_batch` on the
cache alone: one write per returned translation, in input order, so the most
recent (last-occurrence) write ends up at the head of the association list. -/

def storeAll (lang : String) : List String → List String → Cache → Cache
  | t :: ts, v :: vs, c => storeAll lang ts vs (((t, lang), v) :: c)
  | _, _, c => c

/- Concrete texts realising the estimated costs 399, 1, 399 and 1000 of the
batch-packing boundary example (excelCost t = (len(t) + 4) / 4 because the
4-character delimiter "|//|" is appended before estimating). -/

def ex399a : String := String.mk (List.replicate 1592 'a')

def ex1 : String := "b"

def ex399b : String := String.mk (List.replicate 1592 'c')

def ex1000 : String := String.mk (List.replicate 3996 'd')

/-! ### Helper lemmas -/

theorem set_at_front {α : Type} (A : List α) (b x : α) (R : List α) :
    (A ++ b :: R).set A.length x = A ++ x :: R := by
  induction A with
  | nil => rfl
  | cons a A ih => simp [List.set, ih]

theorem getElem?_at_front {α : Type} (A : List α) (b : α) (R : List α) :
    (A ++ b :: R)[A.length]? = some b := by
  induction A with
  | nil => simp
  | cons a A ih => simpa using ih

theorem getCachedGo_slots_length (cache : Cache) (lang : String) :
    ∀ (texts : List String) (i : Nat),
      ((getCachedGo cache lang i texts).2.2).length = texts.length := by
  intro texts
  induction texts with
  | nil => intro i; rfl
  | cons t rest ih =>
    intro i
    simp only [getCachedGo]
    cases cacheLookup cache (t, lang) <;> simp [ih]

theorem getCachedGo_all_miss (cache : Cache) (lang : String) :
    ∀ (texts : List String) (i : Nat),
      (∀ t ∈ texts, cacheLookup cache (t, lang) = none) →
      getCachedGo cache lang i texts =
        (List.range' i texts.length, texts, List.replicate texts.length none) := by
  intro texts
  induction texts with
  | nil => intro i _; rfl
  | cons t rest ih =>
    intro i h
    simp only [getCachedGo, h t (by simp), ih (i + 1) (fun x hx => h x (by simp [hx])),
      List.length_cons, List.range'_succ, List.replicate_succ]

theorem applyNew_slots_length (lang : String) :
    ∀ (nts : List String) (idxs : List Nat) (ts : List String) (c : Cache)
      (slots : List (Option String)),
      ((applyNew lang idxs ts nts c slots).2.2).length = slots.length := by
  intro nts
  induction nts with
  | nil => intro idxs ts c slots; cases idxs <;> cases ts <;> rfl
  | cons nt nts ih =>
    intro idxs ts c slots
    cases idxs with
    | nil => cases ts <;> rfl
    | cons i irest =>
      cases ts with
      | nil => rfl
      | cons t trest => simp [applyNew, ih]

theorem handleFailed_length (pre : List String) :
    ∀ (idxs : List Nat) (slots : List (Option String)),
      (handleFailed pre idxs slots).length = slots.length := by
  intro idxs
  induction idxs with
  | nil => intro slots; rfl
  | cons i irest ih =>
    intro slots
    simp only [handleFailed]
    cases h : slots[i]? with
    | none => simpa using ih slots
    | some o => cases o <;> simp [ih, List.length_set]

theorem applyNew_range' (lang : String) :
    ∀ (vs ts : List String) (i : Nat) (A : List (Option String)) (c : Cache),
      A.length = i → ts.length = vs.length →
      applyNew lang (List.range' i vs.length) ts vs c (A ++ List.replicate vs.length none) =
        (true, storeAll lang ts vs c, A ++ vs.map some) := by
  intro vs
  induction vs with
  | nil =>
    intro ts i A c _ hl
    have hts : ts = [] := List.length_eq_zero.mp hl
    subst hts
    simp [applyNew, storeAll]
  | cons v vs ih =>
    intro ts i A c hA hl
    subst hA
    cases ts with
    | nil => simp at hl
    | cons t ts =>
      simp only [List.length_cons, List.range'_succ, List.replicate_succ, applyNew]
      rw [set_at_front]
      have h1 : A ++ some v :: List.replicate vs.length none
          = (A ++ [some v]) ++ List.replicate vs.length none := by simp
      rw [h1, ih ts (A.length + 1) (A ++ [some v]) (((t, lang), v) :: c)
        (by simp) (by simpa using hl)]
      simp [storeAll]

theorem handleFailed_range' :
    ∀ (k i : Nat) (A : List (Option String)) (pre : List String),
      A.length = i → i + k = pre.length →
      handleFailed pre (List.range' i k) (A ++ List.replicate k none) =
        A ++ (pre.drop i).map some := by
  intro k
  induction k with
  | zero =>
    intro i A pre _ hk
    have : pre.drop i = [] := List.drop_eq_nil_of_le (by omega)
    simp [handleFailed, this]
  | succ k ih =>
    intro i A pre hA hk
    subst hA
    have hi : A.length < pre.length := by omega
    have hgd : pre.getD A.length "" = pre[A.length] := List.getD_eq_getElem pre "" hi
    simp only [List.range'_succ, List.replicate_succ, handleFailed, getElem?_at_front,
      set_at_front, hgd]
    have h1 : A ++ some pre[A.length] :: List.replicate k none
        = (A ++ [some pre[A.length]]) ++ List.replicate k none := by simp
    rw [h1, ih (A.length + 1) (A ++ [some pre[A.length]]) pre (by simp) (by omega)]
    rw [List.drop_eq_getElem_cons hi]
    simp only [List.map_cons, List.append_assoc, List.cons_append, List.singleton_append,
      List.nil_append]

theorem storeAll_lookup_const (lang x : String) :
    ∀ (ts vs : List String) (c : Cache) (t : String),
      ts.length = vs.length → (∀ v ∈ vs, v = x) →
      (t ∈ ts ∨ cacheLookup c (t, lang) = some x) →
      cacheLookup (storeAll lang ts vs c) (t, lang) = some x := by
  intro ts
  induction ts with
  | nil =>
    intro vs c t hl _ ht
    have hvs : vs = [] := List.length_eq_zero.mp hl.symm
    subst hvs
    rcases ht with h | h
    · simp at h
    · simpa [storeAll] using h
  | cons t0 ts ih =>
    intro vs c t hl hv ht
    cases vs with
    | nil => simp at hl
    | cons v vs =>
      simp only [storeAll]
      apply ih vs _ t (by simpa using hl) (fun w hw => hv w (by simp [hw]))
      rcases ht with h | h
      · rcases List.mem_cons.mp h with h0 | h0
        · subst h0
          right
          have : v = x := hv v (by simp)
          simp [cacheLookup, this]
        · exact Or.inl h0
      · right
        simp only [cacheLookup]
        split
        · next heq =>
          have : t0 = t := by
            have := Prod.ext_iff.mp heq
            simpa using this.1
          have hvx : v = x := hv v (by simp)
          simp [hvx]
        · exact h

/- Any list actually returned by `_call_translation_api` has exactly the
length of its input: the direct return is guarded by the count check, the
degraded ValueError branch returns `[""] * len(texts)`, and the split branch
concatenates two recursive results for `texts[:m]` and `texts[m:]`. -/

theorem callApiGo_ok_length (oracle : Oracle) :
    ∀ (fuel al : Nat) (texts : List String) (st : ApiState) (res : List String)
      (st' : ApiState),
      callApiGo oracle fuel al texts st = some (.ok res, st') →
      res.length = texts.length := by
  intro fuel
  induction fuel with
  | zero => intro al texts st res st' h; simp [callApiGo] at h
  | succ f ih =>
    intro al texts st res st' h
    match al with
    | 0 => simp [callApiGo] at h
    | al + 1 =>
      simp only [callApiGo] at h
      cases ho : oracle st.requests.length texts with
      | ok ts =>
        simp only [ho] at h
        by_cases hlen : ts.length = texts.length
        · rw [if_pos hlen] at h
          simp only [Option.some.injEq, Prod.mk.injEq, CallResult.ok.injEq] at h
          rw [← h.1]
          exact hlen
        · rw [if_neg hlen] at h
          cases h1 : callApiGo oracle f MAX_RETRIES (texts.take (texts.length / 2))
              ⟨st.requests ++ [texts], st.trace ++ [SleepEv.request]⟩ with
          | none => simp only [h1] at h; simp at h
          | some p1 =>
            simp only [h1] at h
            obtain ⟨r1, st3⟩ := p1
            cases r1 with
            | raised => simp at h
            | failed =>
              cases h2 : callApiGo oracle f MAX_RETRIES (texts.drop (texts.length / 2)) st3 with
              | none => simp only [h2] at h; simp at h
              | some p2 =>
                simp only [h2] at h
                obtain ⟨r2, st4⟩ := p2
                simp at h
            | ok l1 =>
              cases h2 : callApiGo oracle f MAX_RETRIES (texts.drop (texts.length / 2)) st3 with
              | none => simp only [h2] at h; simp at h
              | some p2 =>
                simp only [h2] at h
                obtain ⟨r2, st4⟩ := p2
                cases r2 with
                | failed => simp at h
                | raised => simp at h
                | ok l2 =>
                  simp only [Option.some.injEq, Prod.mk.injEq, CallResult.ok.injEq] at h
                  have e1 := ih MAX_RETRIES _ _ _ _ h1
                  have e2 := ih MAX_RETRIES _ _ _ _ h2
                  rw [← h.1, List.length_append, e1, e2, List.length_take,
                    List.length_drop]
                  omega
      | badJson =>
        simp only [ho, Option.some.injEq, Prod.mk.injEq, CallResult.ok.injEq] at h
        rw [← h.1, List.length_replicate]
      | err q =>
        simp only [ho] at h
        by_cases hal : al = 0
        · rw [if_pos hal] at h; simp at h
        · rw [if_neg hal] at h
          exact ih al _ _ _ _ h

/- A fully-cached singleton is answered from the cache with no remote call and
no state change (`translate_batch` lines 41-55 skip the API entirely when
`uncached_texts` is empty). -/

theorem translateBatch_cacheHit_singleton (oracle : Oracle) (fuel : Nat) (t lang : String)
    (st : TransState) (v : String)
    (h : cacheLookup st.cache (preprocessText t, lang) = some v) :
    translateBatch oracle fuel [t] lang st = some (.ok [some v], st) := by
  simp [translateBatch, getCachedTranslations, getCachedGo, h]

/- Whenever `translate_batch` returns normally (no escaping exception, enough
stack), the returned list has exactly one slot per input text. -/

theorem translateBatch_ok_length (oracle : Oracle) (fuel : Nat) (texts : List String)
    (lang : String) (st : TransState) (res : List (Option String)) (st' : TransState)
    (h : translateBatch oracle fuel texts lang st = some (.ok res, st')) :
    res.length = texts.length := by
  by_cases he : texts = []
  · subst he
    have hnil : translateBatch oracle fuel [] lang st = some (.ok [], st) := rfl
    rw [hnil] at h
    simp only [Option.some.injEq, Prod.mk.injEq, BatchResult.ok.injEq] at h
    rw [← h.1]
    rfl
  · have hslots : ((getCachedTranslations st.cache lang (texts.map preprocessText)).2.2).length
        = texts.length := by
      rw [getCachedTranslations, getCachedGo_slots_length, List.length_map]
    simp only [translateBatch, if_neg he] at h
    by_cases hu : (getCachedTranslations st.cache lang (texts.map preprocessText)).2.1 = []
    · rw [if_pos hu] at h
      simp only [Option.some.injEq, Prod.mk.injEq, BatchResult.ok.injEq] at h
      rw [← h.1]
      exact hslots
    · rw [if_neg hu] at h
      split at h
      · simp at h
      · simp at h
      · simp only [Option.some.injEq, Prod.mk.injEq, BatchResult.ok.injEq] at h
        rw [← h.1, handleFailed_length]
        exact hslots
      · next newTs api2 heq =>
        by_cases hn : newTs = []
        · rw [if_pos hn] at h
          simp only [Option.some.injEq, Prod.mk.injEq, BatchResult.ok.injEq] at h
          rw [← h.1, handleFailed_length]
          exact hslots
        · rw [if_neg hn] at h
          split at h
          · next c2 slots2 happly =>
            simp only [Option.some.injEq, Prod.mk.injEq, BatchResult.ok.injEq] at h
            rw [← h.1]
            have hlen2 := applyNew_slots_length lang newTs
              (getCachedTranslations st.cache lang (texts.map preprocessText)).1
              (getCachedTranslations st.cache lang (texts.map preprocessText)).2.1
              st.cache
              (getCachedTranslations st.cache lang (texts.map preprocessText)).2.2
            rw [happly] at hlen2
            simpa [hslots] using hlen2
          · simp at h

/- One successful attempt: a response whose length matches is returned as-is
(after the post-parse REQUEST_DELAY sleep). -/

theorem callApiGo_ok_step (oracle : Oracle) (fuel al : Nat) (texts ts : List String)
    (st : ApiState) (ho : oracle st.requests.length texts = RemoteResp.ok ts)
    (hlen : ts.length = texts.length) :
    callApiGo oracle (fuel + 1) (al + 1) texts st =
      some (.ok ts, ⟨st.requests ++ [texts], st.trace ++ [SleepEv.request]⟩) := by
  simp only [callApiGo, ho, if_pos hlen]

/- One unparseable-JSON attempt: the degraded branch returns [""] * len(texts)
immediately (no REQUEST_DELAY sleep, since json.loads raised before it). -/

theorem callApiGo_badJson_step (oracle : Oracle) (fuel al : Nat) (texts : List String)
    (st : ApiState) (ho : oracle st.requests.length texts = RemoteResp.badJson) :
    callApiGo oracle (fuel + 1) (al + 1) texts st =
      some (.ok (List.replicate texts.length ""), ⟨st.requests ++ [texts], st.trace⟩) := by
  simp only [callApiGo, ho]

/- One quota-exhaustion attempt that is not the last: both the long quota
backoff and the standard retry delay are slept, in that order, before the next
attempt. -/

theorem callApiGo_quota_step (oracle : Oracle) (fuel al : Nat) (texts : List String)
    (st : ApiState) (ho : oracle st.requests.length texts = RemoteResp.err true)
    (hal : al ≠ 0) :
    callApiGo oracle (fuel + 1) (al + 1) texts st =
      callApiGo oracle fuel al texts
        ⟨st.requests ++ [texts], st.trace ++ [SleepEv.quotaBackoff, SleepEv.retry]⟩ := by
  simp only [callApiGo, ho, if_neg hal, List.append_assoc]
  rfl

/- With the degenerate midpoint split `1 // 2 = 0`, a singleton input whose
responses always have the wrong count recurses on the very same singleton:
no amount of stack (fuel) completes the call. -/

theorem callApiGo_tooShort_singleton :
    ∀ (fuel al : Nat) (st : ApiState),
      callApiGo tooShortOracle fuel (al + 1) ["a"] st = none := by
  intro fuel
  induction fuel with
  | zero => intro al st; rfl
  | succ f ih =>
    intro al st
    cases f with
    | zero => rfl
    | succ f2 =>
      have ih9 : ∀ s : ApiState, callApiGo tooShortOracle (f2 + 1) 10 ["a"] s = none :=
        fun s => ih 9 s
      have h1 : callApiGo tooShortOracle (f2 + 1 + 1) (al + 1) ["a"] st =
          match callApiGo tooShortOracle (f2 + 1) 10 ["a"]
              ⟨st.requests ++ [["a"]] ++ [[]],
               st.trace ++ [SleepEv.request] ++ [SleepEv.request]⟩ with
          | none => none
          | some (.raised, st4) => some (.raised, st4)
          | some (.ok l2, st4) => some (.ok ([] ++ l2), st4)
          | some (.failed, st4) => some (.raised, st4) := rfl
      rw [h1, ih9]

/- `translate_batch` on inputs that are all cache misses, when the first remote
attempt returns a list of the right length: every slot is filled positionally
and every (preprocessed text, language) key is written to the cache. -/

theorem translateBatch_allMiss_ok (oracle : Oracle) (fuel : Nat) (texts vs : List String)
    (lang : String) (st : TransState) (api2 : ApiState)
    (hne : texts ≠ [])
    (hmiss : ∀ t ∈ texts.map preprocessText, cacheLookup st.cache (t, lang) = none)
    (hc : callApi oracle fuel (texts.map preprocessText) st.api = some (.ok vs, api2))
    (hlen : vs.length = (texts.map preprocessText).length) :
    translateBatch oracle fuel texts lang st =
      some (.ok (vs.map some),
        ⟨storeAll lang (texts.map preprocessText) vs st.cache, api2⟩) := by
  have hpre : texts.map preprocessText ≠ [] := by simpa using hne
  have hgc : getCachedTranslations st.cache lang (texts.map preprocessText)
      = (List.range' 0 (texts.map preprocessText).length, texts.map preprocessText,
         List.replicate (texts.map preprocessText).length none) :=
    getCachedGo_all_miss st.cache lang (texts.map preprocessText) 0 hmiss
  have hvs : vs ≠ [] := by
    intro hv
    rw [hv] at hlen
    simp only [List.length_nil, List.length_map] at hlen
    exact hne (List.length_eq_zero.mp hlen.symm)
  have happ : applyNew lang (List.range' 0 vs.length) (texts.map preprocessText) vs st.cache
      ([] ++ List.replicate vs.length none)
      = (true, storeAll lang (texts.map preprocessText) vs st.cache, [] ++ vs.map some) :=
    applyNew_range' lang vs (texts.map preprocessText) 0 [] st.cache rfl hlen.symm
  simp only [List.nil_append] at happ
  simp only [translateBatch, if_neg hne, hgc, if_neg hpre, hc, if_neg hvs, ← hlen, happ]

/- `translate_batch` on inputs that are all cache misses, when the client
signals unrecoverable failure (returns None): every slot degrades to the
preprocessed source text and the cache is untouched. -/

theorem translateBatch_allMiss_failed (oracle : Oracle) (fuel : Nat) (texts : List String)
    (lang : String) (st : TransState) (api2 : ApiState)
    (hne : texts ≠ [])
    (hmiss : ∀ t ∈ texts.map preprocessText, cacheLookup st.cache (t, lang) = none)
    (hc : callApi oracle fuel (texts.map preprocessText) st.api = some (.failed, api2)) :
    translateBatch oracle fuel texts lang st =
      some (.ok ((texts.map preprocessText).map some), ⟨st.cache, api2⟩) := by
  have hpre : texts.map preprocessText ≠ [] := by simpa using hne
  have hgc : getCachedTranslations st.cache lang (texts.map preprocessText)
      = (List.range' 0 (texts.map preprocessText).length, texts.map preprocessText,
         List.replicate (texts.map preprocessText).length none) :=
    getCachedGo_all_miss st.cache lang (texts.map preprocessText) 0 hmiss
  have hhf : handleFailed (texts.map preprocessText)
      (List.range' 0 (texts.map preprocessText).length)
      ([] ++ List.replicate (texts.map preprocessText).length none)
      = [] ++ ((texts.map preprocessText).drop 0).map some :=
    handleFailed_range' (texts.map preprocessText).length 0 [] (texts.map preprocessText)
      rfl (by omega)
  simp only [List.nil_append, List.drop_zero] at hhf
  simp only [translateBatch, if_neg hne, hgc, if_neg hpre, hc, hhf]

/- The spreadsheet batcher never drops or reorders a unit: flattening the
produced batches restores the input list. -/

theorem createBatchesExcelGo_flatten :
    ∀ (l : List String) (batches : List (List String)) (cur : List String) (curTok : Nat),
      (createBatchesExcelGo batches cur curTok l).flatten = batches.flatten ++ cur ++ l := by
  intro l
  induction l with
  | nil =>
    intro batches cur curTok
    by_cases hc : cur = [] <;> simp [createBatchesExcelGo, hc]
  | cons t rest ih =>
    intro batches cur curTok
    simp only [createBatchesExcelGo]
    split
    · by_cases hc : cur = [] <;> simp [hc, ih]
    · simp [ih]

/- Any batch of two or more units produced by the spreadsheet batcher has
summed estimated cost within the limit. -/

theorem createBatchesExcelGo_bounded :
    ∀ (l : List String) (batches : List (List String)) (cur : List String) (curTok : Nat),
      curTok = (cur.map excelCost).sum →
      (2 ≤ cur.length → curTok ≤ MAX_TOKENS_PER_REQUEST) →
      (∀ b ∈ batches, 2 ≤ b.length → (b.map excelCost).sum ≤ MAX_TOKENS_PER_REQUEST) →
      ∀ b ∈ createBatchesExcelGo batches cur curTok l, 2 ≤ b.length →
        (b.map excelCost).sum ≤ MAX_TOKENS_PER_REQUEST := by
  intro l
  induction l with
  | nil =>
    intro batches cur curTok h1 h2 h3 b hb hlen
    rw [createBatchesExcelGo] at hb
    by_cases hc : cur = []
    · rw [if_pos hc] at hb
      exact h3 b hb hlen
    · rw [if_neg hc] at hb
      rcases List.mem_append.mp hb with hm | hm
      · exact h3 b hm hlen
      · have : b = cur := by simpa using hm
        subst this
        rw [← h1]
        exact h2 hlen
  | cons t rest ih =>
    intro batches cur curTok h1 h2 h3 b hb hlen
    rw [createBatchesExcelGo] at hb
    split at hb
    · next hover =>
      refine ih _ _ _ (by simp) (by intro hh; simp at hh) ?_ b hb hlen
      intro b2 hb2 hlen2
      by_cases hc : cur = []
      · rw [if_pos hc] at hb2
        exact h3 b2 hb2 hlen2
      · rw [if_neg hc] at hb2
        rcases List.mem_append.mp hb2 with hm | hm
        · exact h3 b2 hm hlen2
        · have : b2 = cur := by simpa using hm
          subst this
          rw [← h1]
          exact h2 hlen2
    · next hover =>
      refine ih _ _ _ (by simp [h1]) ?_ h3 b hb hlen
      intro _
      omega

/- Same two facts for the word-processing batcher over (index, text) pairs. -/

theorem createBatchesDocxGo_flatten :
    ∀ (l : List (Nat × String)) (batches : List (List (Nat × String)))
      (cur : List (Nat × String)) (curTok : Nat),
      (createBatchesDocxGo batches cur curTok l).flatten = batches.flatten ++ cur ++ l := by
  intro l
  induction l with
  | nil =>
    intro batches cur curTok
    by_cases hc : cur = [] <;> simp [createBatchesDocxGo, hc]
  | cons u rest ih =>
    intro batches cur curTok
    simp only [createBatchesDocxGo]
    split
    · simp [ih]
    · simp [ih]

theorem createBatchesDocxGo_bounded :
    ∀ (l : List (Nat × String)) (batches : List (List (Nat × String)))
      (cur : List (Nat × String)) (curTok : Nat),
      curTok = (cur.map docxCost).sum →
      (2 ≤ cur.length → curTok ≤ MAX_TOKENS_PER_REQUEST) →
      (∀ b ∈ batches, 2 ≤ b.length → (b.map docxCost).sum ≤ MAX_TOKENS_PER_REQUEST) →
      ∀ b ∈ createBatchesDocxGo batches cur curTok l, 2 ≤ b.length →
        (b.map docxCost).sum ≤ MAX_TOKENS_PER_REQUEST := by
  intro l
  induction l with
  | nil =>
    intro batches cur curTok h1 h2 h3 b hb hlen
    rw [createBatchesDocxGo] at hb
    by_cases hc : cur = []
    · rw [if_pos hc] at hb
      exact h3 b hb hlen
    · rw [if_neg hc] at hb
      rcases List.mem_append.mp hb with hm | hm
      · exact h3 b hm hlen
      · have : b = cur := by simpa using hm
        subst this
        rw [← h1]
        exact h2 hlen
  | cons u rest ih =>
    intro batches cur curTok h1 h2 h3 b hb hlen
    rw [createBatchesDocxGo] at hb
    split at hb
    · next hover =>
      refine ih _ _ _ (by simp) (by intro hh; simp at hh) ?_ b hb hlen
      intro b2 hb2 hlen2
      rcases List.mem_append.mp hb2 with hm | hm
      · exact h3 b2 hm hlen2
      · have : b2 = cur := by simpa using hm
        subst this
        rw [← h1]
        exact h2 hlen2
    · next hover =>
      refine ih _ _ _ (by simp [h1]) ?_ h3 b hb hlen
      intro hlen2
      by_cases hov : curTok + docxCost u > MAX_TOKENS_PER_REQUEST
      · have hcur : cur = [] := by
          by_contra hcc
          exact hover ⟨hov, hcc⟩
        rw [hcur] at hlen2
        simp at hlen2
      · omega

/- Cost computations for the batch-boundary example texts. -/

theorem excelCost_eq (t : String) : excelCost t = (t.length + 4) / 4 := by
  have h4 : ("|//|" : String).length = 4 := rfl
  simp only [excelCost, estimateTokensExcel, TRANSLATION_DELIMITER, CHARS_PER_TOKEN,
    String.length_append, h4]

theorem ex399a_cost : excelCost ex399a = 399 := by
  have h : ex399a.length = (List.replicate 1592 'a').length := rfl
  rw [excelCost_eq, h, List.length_replicate]

theorem ex399b_cost : excelCost ex399b = 399 := by
  have h : ex399b.length = (List.replicate 1592 'c').length := rfl
  rw [excelCost_eq, h, List.length_replicate]

theorem ex1000_cost : excelCost ex1000 = 1000 := by
  have h : ex1000.length = (List.replicate 3996 'd').length := rfl
  rw [excelCost_eq, h, List.length_replicate]

theorem ex1_cost : excelCost ex1 = 1 := rfl

/- A singleton input whose response always has the wrong count never resolves
at the engine level either: translate_batch never returns on such input. -/

theorem translateBatch_tooShort_a (fuel : Nat) (lang : String) :
    translateBatch tooShortOracle fuel ["a"] lang initTrans = none := by
  match fuel with
  | 0 => rfl
  | f + 1 =>
    have hgc : getCachedTranslations initTrans.cache lang [preprocessText "a"]
        = ([0], ["a"], [none]) := rfl
    have hc : callApi tooShortOracle (f + 1) ["a"] initTrans.api = none :=
      callApiGo_tooShort_singleton (f + 1) 9 initApi
    simp [translateBatch, hgc, hc]

/-! ### Claims -/

/-- C1 counterexample: the claim as stated is false.  With a remote service
whose first response has the wrong cardinality and which then keeps raising
transient errors, translate_batch(["a", "b"], "French") does not return a
2-element list: both recursive halves of the split exhaust MAX_RETRIES and
return None, and `first_half + second_half` raises a TypeError that escapes
translate_batch (outcome `raised`). -/
theorem C1_counterexample :
    (translateBatch mixedOracle 15 ["a", "b"] "French" initTrans).map Prod.fst =
      some BatchResult.raised := rfl

/-- C1 (amended): whenever translate_batch returns normally, the result has
len(result) == len(texts); the empty input list returns the empty list with no
state change; and under a deterministic tagging remote service the i-th output
is the tag of the i-th (preprocessed) input, so the i-th output corresponds to
the i-th input.  (The unqualified "regardless of remote-service behavior" part
of the claim fails: see the counterexample, and C2 for divergence.) -/
theorem C1_translate_batch_shape :
    (∀ (oracle : Oracle) (fuel : Nat) (texts : List String) (lang : String)
        (st : TransState) (res : List (Option String)) (st' : TransState),
        translateBatch oracle fuel texts lang st = some (.ok res, st') →
        res.length = texts.length)
    ∧ (∀ (oracle : Oracle) (fuel : Nat) (lang : String) (st : TransState),
        translateBatch oracle fuel [] lang st = some (.ok [], st))
    ∧ (∀ (tag : String → String) (fuel : Nat) (texts : List String) (lang : String),
        texts ≠ [] →
        translateBatch (tagOracle tag) (fuel + 1) texts lang initTrans =
          some (.ok (texts.map fun t => some (tag (preprocessText t))),
            ⟨storeAll lang (texts.map preprocessText)
               ((texts.map preprocessText).map tag) [],
             ⟨[texts.map preprocessText], [SleepEv.request]⟩⟩)) := by
  refine ⟨translateBatch_ok_length, fun oracle fuel lang st => rfl, ?_⟩
  intro tag fuel texts lang hne
  have hc : callApi (tagOracle tag) (fuel + 1) (texts.map preprocessText) initTrans.api =
      some (.ok ((texts.map preprocessText).map tag),
        ⟨initTrans.api.requests ++ [texts.map preprocessText],
         initTrans.api.trace ++ [SleepEv.request]⟩) :=
    callApiGo_ok_step (tagOracle tag) fuel 9 (texts.map preprocessText)
      ((texts.map preprocessText).map tag) initTrans.api rfl (by simp)
  have h := translateBatch_allMiss_ok (tagOracle tag) (fuel + 1) texts
    ((texts.map preprocessText).map tag) lang initTrans _ hne (fun t _ => rfl) hc (by simp)
  simpa [List.map_map, Function.comp, initTrans, initApi] using h

/-- Witness for C1: the amended theorem applied at concrete inputs, with all
hypotheses discharged. -/
theorem C1_translate_batch_shape_witness :
    (([some "a"] : List (Option String)).length = (["a"] : List String).length)
    ∧ translateBatch (tagOracle id) 1 [] "French" initTrans =
        some (.ok [], initTrans) := by
  constructor
  · exact C1_translate_batch_shape.1 (tagOracle id) 1 ["a"] "French" initTrans
      (["a"].map fun t => some (id (preprocessText t)))
      ⟨storeAll "French" (["a"].map preprocessText) ((["a"].map preprocessText).map id) [],
       ⟨[["a"].map preprocessText], [SleepEv.request]⟩⟩
      (C1_translate_batch_shape.2.2 id 0 ["a"] "French" (by decide))
  · exact C1_translate_batch_shape.2.1 (tagOracle id) 1 "French" initTrans

/-- C2: the split-retry recursion does not terminate for every input — code
bug.  The midpoint split `len(texts) // 2` does not reduce a singleton:
`["a"]` splits into `[]` and `["a"]` itself, so a remote service that always
returns a too-short list makes `_call_translation_api` recurse on the same
singleton forever (for every stack budget the model reports fuel exhaustion,
at the client level and at the engine level).  The degradation to `[""]`
claimed for n = 1 exists only in the non-mismatch ValueError branch. -/
theorem C2_split_recursion_diverges :
    (∀ (fuel al : Nat) (st : ApiState),
        callApiGo tooShortOracle fuel (al + 1) ["a"] st = none)
    ∧ (∀ (fuel : Nat) (lang : String),
        translateBatch tooShortOracle fuel ["a"] lang initTrans = none) :=
  ⟨callApiGo_tooShort_singleton, translateBatch_tooShort_a⟩

/-- C3 counterexample: the fallback is not the original input verbatim.  With
a remote service that always raises a transient error, the input
"  original  " comes back as "original" — the preprocessed (stripped) text,
which differs from the verbatim input. -/
theorem C3_counterexample :
    (translateBatch alwaysErrOracle 10 ["  original  "] "French" initTrans).map Prod.fst =
      some (BatchResult.ok [some "original"])
    ∧ (("original" : String) = "  original  ") = False :=
  ⟨rfl, eq_false (by decide)⟩

/-- C3 (amended): when the remote service throws a transient error on every
attempt, translate_batch makes exactly MAX_RETRIES attempts for the batch
(requests log has MAX_RETRIES entries) and then returns, for every input, the
preprocessed (whitespace-normalized) input text — never a missing/null slot.
The fallback is verbatim only for inputs already in normalized form. -/
theorem C3_fallback_after_retries :
    ∀ (texts : List String) (lang : String) (fuel : Nat), texts ≠ [] →
      translateBatch alwaysErrOracle (fuel + 10) texts lang initTrans =
        some (.ok (texts.map fun t => some (preprocessText t)),
          ⟨[], ⟨List.replicate MAX_RETRIES (texts.map preprocessText),
                List.replicate 9 SleepEv.retry⟩⟩) := by
  intro texts lang fuel hne
  have hrun : callApi alwaysErrOracle (fuel + 10) (texts.map preprocessText)
      initTrans.api =
      some (.failed, ⟨List.replicate MAX_RETRIES (texts.map preprocessText),
        List.replicate 9 SleepEv.retry⟩) := rfl
  have h := translateBatch_allMiss_failed alwaysErrOracle (fuel + 10) texts lang initTrans
      ⟨List.replicate MAX_RETRIES (texts.map preprocessText), List.replicate 9 SleepEv.retry⟩
      hne (fun t _ => rfl) hrun
  simpa [List.map_map, Function.comp, initTrans] using h

/-- Witness for C3: the amended theorem at a concrete whitespace-padded input
(10 = 0 + 10 attempts; the fallback is the stripped text). -/
theorem C3_fallback_after_retries_witness :
    translateBatch alwaysErrOracle 10 ["  spaced  "] "German" initTrans =
      some (.ok [some "spaced"],
        ⟨[], ⟨List.replicate MAX_RETRIES ["spaced"],
              List.replicate 9 SleepEv.retry⟩⟩) :=
  C3_fallback_after_retries ["  spaced  "] "German" 0 (by decide)

/-- C4: an exception does escape translate_batch — code bug.  With a remote
service whose first response has the wrong count and which then raises
transient errors on every call, both recursive halves of the split exhaust
MAX_RETRIES and return None, and `first_half + second_half` (line 99) raises
a TypeError inside the `except ValueError` handler; nothing catches it, so it
propagates past translate_batch to the caller. -/
theorem C4_exception_escapes :
    (translateBatch mixedOracle 15 ["hello", "world"] "German" initTrans).map Prod.fst =
      some BatchResult.raised := rfl

/-- C5 counterexample: the spreadsheet estimator is floor, not ceil:
ExcelProcessor.estimate_tokens("abc") = 3 // 4 = 0, whereas the claim's
ceil(len/4) = (3 + 3) / 4 = 1. -/
theorem C5_counterexample :
    (estimateTokensExcel "abc" = (("abc" : String).length + 3) / 4) = False :=
  eq_false (by decide)

/-- C5 (amended): the two estimators differ.  DocxProcessor.estimate_tokens
rounds up — ceil(len/4) = (len+3)/4 — and never under-counts (len ≤ 4 ×
estimate); ExcelProcessor.estimate_tokens rounds down — len // 4 — and can
under-count, e.g. on "abc" (4 × estimate < len). -/
theorem C5_estimators :
    (∀ s : String, estimateTokensDocx s = (s.length + 3) / 4)
    ∧ (∀ s : String, estimateTokensExcel s = s.length / 4)
    ∧ (∀ s : String, s.length ≤ 4 * estimateTokensDocx s)
    ∧ estimateTokensExcel "abc" * 4 < ("abc" : String).length := by
  have hceil : ∀ s : String, estimateTokensDocx s = (s.length + 3) / 4 := by
    intro s
    simp [estimateTokensDocx, CHARS_PER_TOKEN]
  refine ⟨hceil, fun s => rfl, ?_, by decide⟩
  intro s
  rw [hceil s]
  omega

/-- C6: both batchers (spreadsheet over texts, word-processing over
(index, text) pairs) preserve relative order and drop nothing — flattening the
batches reproduces the input exactly; non-empty input yields at least one
batch; every batch of size at least 2 has summed estimated cost at most the
limit; a unit whose cost alone exceeds the limit still forms its own singleton
batch; and the boundary example with costs [399, 1, 399] against limit 400
packs as [[399, 1], [399]], while a single cost-1000 text forms its own
batch. -/
theorem C6_create_batches :
    (∀ texts : List String, (createBatchesExcel texts).flatten = texts)
    ∧ (∀ texts : List String, texts ≠ [] → createBatchesExcel texts ≠ [])
    ∧ (∀ (texts b : List String), b ∈ createBatchesExcel texts →
        2 ≤ b.length → (b.map excelCost).sum ≤ MAX_TOKENS_PER_REQUEST)
    ∧ (∀ (texts b : List String) (t : String), b ∈ createBatchesExcel texts →
        t ∈ b → MAX_TOKENS_PER_REQUEST < excelCost t → b = [t])
    ∧ (∀ items : List (Nat × String), (createBatchesDocx items).flatten = items)
    ∧ (∀ items : List (Nat × String), items ≠ [] → createBatchesDocx items ≠ [])
    ∧ (∀ (items : List (Nat × String)) (b : List (Nat × String)),
        b ∈ createBatchesDocx items → 2 ≤ b.length →
        (b.map docxCost).sum ≤ MAX_TOKENS_PER_REQUEST)
    ∧ (excelCost ex399a = 399 ∧ excelCost ex1 = 1 ∧ excelCost ex399b = 399
        ∧ createBatchesExcel [ex399a, ex1, ex399b] = [[ex399a, ex1], [ex399b]])
    ∧ (MAX_TOKENS_PER_REQUEST < excelCost ex1000
        ∧ createBatchesExcel [ex1000] = [[ex1000]]) := by
  have hflatE : ∀ texts : List String, (createBatchesExcel texts).flatten = texts := by
    intro texts
    simpa using createBatchesExcelGo_flatten texts [] [] 0
  have hboundE : ∀ (texts b : List String), b ∈ createBatchesExcel texts →
      2 ≤ b.length → (b.map excelCost).sum ≤ MAX_TOKENS_PER_REQUEST := by
    intro texts
    exact createBatchesExcelGo_bounded texts [] [] 0 rfl (by intro hh; simp at hh)
      (by intro b hb; simp at hb)
  refine ⟨hflatE, ?_, hboundE, ?_, ?_, ?_, ?_, ?_, ?_⟩
  · intro texts hne hnil
    apply hne
    rw [← hflatE texts, hnil]
    rfl
  · intro texts b t hb htb hcost
    have hlen : ¬ 2 ≤ b.length := by
      intro h2
      have hs := hboundE texts b hb h2
      have hm : excelCost t ≤ (b.map excelCost).sum :=
        List.single_le_sum (fun x _ => Nat.zero_le x) _ (List.mem_map_of_mem excelCost htb)
      omega
    have hpos : 0 < b.length := List.length_pos.mpr (List.ne_nil_of_mem htb)
    have h1 : b.length = 1 := by omega
    obtain ⟨x, hx⟩ := List.length_eq_one.mp h1
    subst hx
    have hts : t = x := by simpa using htb
    subst hts
    rfl
  · intro items
    simpa using createBatchesDocxGo_flatten items [] [] 0
  · intro items hne hnil
    have hf : (createBatchesDocx items).flatten = items := by
      simpa using createBatchesDocxGo_flatten items [] [] 0
    apply hne
    rw [← hf, hnil]
    rfl
  · intro items
    exact createBatchesDocxGo_bounded items [] [] 0 rfl (by intro hh; simp at hh)
      (by intro b hb; simp at hb)
  · refine ⟨ex399a_cost, ex1_cost, ex399b_cost, ?_⟩
    simp only [createBatchesExcel, createBatchesExcelGo, MAX_TOKENS_PER_REQUEST]
    rw [ex399a_cost, ex1_cost, ex399b_cost]
    norm_num
    simp
  · refine ⟨by rw [ex1000_cost]; norm_num [MAX_TOKENS_PER_REQUEST], ?_⟩
    simp only [createBatchesExcel, createBatchesExcelGo, MAX_TOKENS_PER_REQUEST]
    rw [ex1000_cost]
    norm_num

/-- Witness for C6: the theorem applied at concrete inputs, discharging the
non-emptiness, membership, batch-size and oversized-cost hypotheses. -/
theorem C6_create_batches_witness :
    ((createBatchesExcel ["x", "y"] = []) = False)
    ∧ ((["x", "y"] : List String).map excelCost).sum ≤ MAX_TOKENS_PER_REQUEST
    ∧ ((createBatchesDocx [(0, "u"), (1, "v")] = []) = False)
    ∧ (([(0, "u"), (1, "v")] : List (Nat × String)).map docxCost).sum ≤
        MAX_TOKENS_PER_REQUEST
    ∧ ([ex1000] : List String) = [ex1000] := by
  obtain ⟨h1, h2, h3, h4, h5, h6, h7, hex, hbig⟩ := C6_create_batches
  refine ⟨eq_false (h2 ["x", "y"] (by decide)),
    h3 ["x", "y"] ["x", "y"] (by decide) (by decide),
    eq_false (h6 [(0, "u"), (1, "v")] (by decide)),
    h7 [(0, "u"), (1, "v")] [(0, "u"), (1, "v")] (by decide) (by decide),
    h4 [ex1000] [ex1000] ex1000 ?_ (by simp) hbig.1⟩
  rw [hbig.2]
  simp

/-- C7: cache idempotence.  (1) A singleton whose (preprocessed text, language)
key is in the cache is answered from the cache with the cached value and no
state change at all — in particular no remote request is issued.  (2) A
successful first call on an uncached singleton issues exactly one remote
request, returns the remote translation, and stores it in the cache under the
(preprocessed text, language) key — so by (1) a second call with the same text
and language returns the identical value without any remote call. -/
theorem C7_cache_idempotence :
    (∀ (oracle : Oracle) (fuel : Nat) (t lang : String) (st : TransState) (v : String),
        cacheLookup st.cache (preprocessText t, lang) = some v →
        translateBatch oracle fuel [t] lang st = some (.ok [some v], st))
    ∧ (∀ (oracle : Oracle) (fuel : Nat) (t lang : String) (st : TransState) (v : String),
        cacheLookup st.cache (preprocessText t, lang) = none →
        oracle st.api.requests.length [preprocessText t] = RemoteResp.ok [v] →
        translateBatch oracle (fuel + 1) [t] lang st =
          some (.ok [some v],
            ⟨((preprocessText t, lang), v) :: st.cache,
             ⟨st.api.requests ++ [[preprocessText t]],
              st.api.trace ++ [SleepEv.request]⟩⟩)) := by
  refine ⟨fun oracle fuel t lang st v h =>
    translateBatch_cacheHit_singleton oracle fuel t lang st v h, ?_⟩
  intro oracle fuel t lang st v h1 h2
  have hc : callApi oracle (fuel + 1) ([t].map preprocessText) st.api =
      some (.ok [v], ⟨st.api.requests ++ [[t].map preprocessText],
        st.api.trace ++ [SleepEv.request]⟩) :=
    callApiGo_ok_step oracle fuel 9 ([t].map preprocessText) [v] st.api h2 rfl
  have h := translateBatch_allMiss_ok oracle (fuel + 1) [t] [v] lang st _ (by simp)
    (by intro x hx; simp only [List.map_cons, List.map_nil, List.mem_singleton] at hx
        subst hx; exact h1) hc rfl
  simpa [storeAll] using h

/-- Witness for C7: the "hello"/"French" double-call scenario.  The first call
(uncached) issues one remote request and returns "bonjour"; the second call,
from the state the first call produced and with a remote that would fail,
returns the identical value with no state change (no remote call). -/
theorem C7_cache_idempotence_witness :
    translateBatch (fun _ _ => RemoteResp.ok ["bonjour"]) 1 ["hello"] "French" initTrans =
      some (.ok [some "bonjour"],
        ⟨[(("hello", "French"), "bonjour")], ⟨[["hello"]], [SleepEv.request]⟩⟩)
    ∧ translateBatch alwaysErrOracle 0 ["hello"] "French"
        ⟨[(("hello", "French"), "bonjour")], ⟨[["hello"]], [SleepEv.request]⟩⟩ =
      some (.ok [some "bonjour"],
        ⟨[(("hello", "French"), "bonjour")], ⟨[["hello"]], [SleepEv.request]⟩⟩) := by
  constructor
  · exact C7_cache_idempotence.2 (fun _ _ => RemoteResp.ok ["bonjour"]) 0 "hello" "French"
      initTrans "bonjour" rfl rfl
  · exact C7_cache_idempotence.1 alwaysErrOracle 0 "hello" "French"
      ⟨[(("hello", "French"), "bonjour")], ⟨[["hello"]], [SleepEv.request]⟩⟩ "bonjour"
      (by decide)

/-- C8: on a quota-exhaustion error that is not the last attempt, the client
sleeps the long quota backoff and then the standard retry delay, in that
order, before the next attempt — the quota backoff is layered on top of the
retry delay, not substituted for it.  With a permanently quota-exhausted
remote, the full trace over MAX_RETRIES attempts is nine [backoff, retry]
pairs followed by a final backoff (the last attempt sleeps the backoff but
not the retry delay before returning None). -/
theorem C8_quota_backoff_layering :
    (∀ (oracle : Oracle) (fuel al : Nat) (texts : List String) (st : ApiState),
        oracle st.requests.length texts = RemoteResp.err true → al ≠ 0 →
        callApiGo oracle (fuel + 1) (al + 1) texts st =
          callApiGo oracle fuel al texts
            ⟨st.requests ++ [texts],
             st.trace ++ [SleepEv.quotaBackoff, SleepEv.retry]⟩)
    ∧ (∀ texts : List String,
        callApiGo alwaysQuotaOracle 15 MAX_RETRIES texts initApi =
          some (.failed, ⟨List.replicate MAX_RETRIES texts,
            (List.replicate 9 [SleepEv.quotaBackoff, SleepEv.retry]).flatten
              ++ [SleepEv.quotaBackoff]⟩)) :=
  ⟨callApiGo_quota_step, fun _ => rfl⟩

/-- Witness for C8: one concrete non-final quota attempt — both sleeps, quota
backoff first, are appended to the trace before the next attempt runs. -/
theorem C8_quota_backoff_layering_witness :
    callApiGo alwaysQuotaOracle 5 2 ["x"] initApi =
      callApiGo alwaysQuotaOracle 4 1 ["x"]
        ⟨[["x"]], [SleepEv.quotaBackoff, SleepEv.retry]⟩ :=
  C8_quota_backoff_layering.1 alwaysQuotaOracle 4 1 ["x"] initApi rfl (by decide)

/-- C9: a badJson response (a ValueError that is not a count mismatch, e.g. an
unparseable JSON body) makes `_call_translation_api` return [""] * n, and —
because that non-empty list is truthy — translate_batch then stores the empty
string in the cache under (preprocessed text, target language) for every text
of the call; afterwards every call with any of those texts is answered with ""
from the cache, with no remote call and no state change, under any remote
behaviour. -/
theorem C9_degraded_empty_string_cached :
    (∀ (oracle : Oracle) (fuel al : Nat) (texts : List String) (st : ApiState),
        oracle st.requests.length texts = RemoteResp.badJson →
        callApiGo oracle (fuel + 1) (al + 1) texts st =
          some (.ok (List.replicate texts.length ""),
            ⟨st.requests ++ [texts], st.trace⟩))
    ∧ (∀ (texts : List String) (lang : String) (fuel : Nat), texts ≠ [] →
        translateBatch badJsonOracle (fuel + 1) texts lang initTrans =
          some (.ok (List.replicate texts.length (some "")),
            ⟨storeAll lang (texts.map preprocessText)
               (List.replicate (texts.map preprocessText).length "") [],
             ⟨[texts.map preprocessText], []⟩⟩)
        ∧ (∀ t ∈ texts,
            cacheLookup (storeAll lang (texts.map preprocessText)
                (List.replicate (texts.map preprocessText).length "") [])
              (preprocessText t, lang) = some "")
        ∧ (∀ (oracle2 : Oracle) (fuel2 : Nat) (t : String), t ∈ texts →
            translateBatch oracle2 fuel2 [t] lang
              ⟨storeAll lang (texts.map preprocessText)
                 (List.replicate (texts.map preprocessText).length "") [],
               ⟨[texts.map preprocessText], []⟩⟩ =
            some (.ok [some ""],
              ⟨storeAll lang (texts.map preprocessText)
                 (List.replicate (texts.map preprocessText).length "") [],
               ⟨[texts.map preprocessText], []⟩⟩))) := by
  constructor
  · exact callApiGo_badJson_step
  · intro texts lang fuel hne
    have hcl : ∀ t ∈ texts,
        cacheLookup (storeAll lang (texts.map preprocessText)
            (List.replicate (texts.map preprocessText).length "") [])
          (preprocessText t, lang) = some "" := by
      intro t ht
      exact storeAll_lookup_const lang "" (texts.map preprocessText) _ [] (preprocessText t)
        (by simp) (fun v hv => List.eq_of_mem_replicate hv)
        (Or.inl (List.mem_map_of_mem preprocessText ht))
    refine ⟨?_, hcl, ?_⟩
    · have hc : callApi badJsonOracle (fuel + 1) (texts.map preprocessText)
          initTrans.api =
          some (.ok (List.replicate (texts.map preprocessText).length ""),
            ⟨initTrans.api.requests ++ [texts.map preprocessText],
             initTrans.api.trace⟩) :=
        callApiGo_badJson_step badJsonOracle fuel 9 (texts.map preprocessText)
          initTrans.api rfl
      have h := translateBatch_allMiss_ok badJsonOracle (fuel + 1) texts
        (List.replicate (texts.map preprocessText).length "") lang initTrans _
        hne (fun t _ => rfl) hc (by simp)
      simpa [List.map_replicate, initTrans, initApi] using h
    · intro oracle2 fuel2 t ht
      exact translateBatch_cacheHit_singleton oracle2 fuel2 t lang _ "" (hcl t ht)

/-- Witness for C9: a concrete run — a badJson response on ["x"] produces
[""], the engine caches "" under ("x", "L"), and a later call with "x" (here
against a remote that would fail) returns "" from the cache unchanged. -/
theorem C9_degraded_empty_string_cached_witness :
    callApiGo badJsonOracle 1 10 ["x"] initApi =
      some (.ok [""], ⟨[["x"]], []⟩)
    ∧ translateBatch badJsonOracle 1 ["x"] "L" initTrans =
        some (.ok [some ""], ⟨[(("x", "L"), "")], ⟨[["x"]], []⟩⟩)
    ∧ translateBatch alwaysErrOracle 0 ["x"] "L"
        ⟨[(("x", "L"), "")], ⟨[["x"]], []⟩⟩ =
        some (.ok [some ""], ⟨[(("x", "L"), "")], ⟨[["x"]], []⟩⟩) := by
  obtain ⟨hA, hB⟩ := C9_degraded_empty_string_cached
  refine ⟨hA badJsonOracle 0 9 ["x"] initApi rfl, ?_, ?_⟩
  · exact (hB ["x"] "L" 0 (by decide)).1
  · exact (hB ["x"] "L" 0 (by decide)).2.2 alwaysErrOracle 0 "x" (by simp)

/-- C10: no intra-call deduplication.  For a duplicated uncached text, both
occurrences are collected and sent in the one remote request (the request log
records [pre t, pre t]); on success each occurrence's result slot receives the
translation returned at its own position ([some a, some b]); and the cache key
is written once per occurrence, the last occurrence's write ((pre t, lang), b)
shadowing the earlier ((pre t, lang), a), so a lookup afterwards yields b. -/
theorem C10_duplicates_no_dedup :
    ∀ (t lang a b : String) (st : TransState) (fuel : Nat) (oracle : Oracle),
      cacheLookup st.cache (preprocessText t, lang) = none →
      oracle st.api.requests.length [preprocessText t, preprocessText t] =
        RemoteResp.ok [a, b] →
      translateBatch oracle (fuel + 1) [t, t] lang st =
        some (.ok [some a, some b],
          ⟨((preprocessText t, lang), b) :: ((preprocessText t, lang), a) :: st.cache,
           ⟨st.api.requests ++ [[preprocessText t, preprocessText t]],
            st.api.trace ++ [SleepEv.request]⟩⟩)
      ∧ cacheLookup
          (((preprocessText t, lang), b) :: ((preprocessText t, lang), a) :: st.cache)
          (preprocessText t, lang) = some b := by
  intro t lang a b st fuel oracle h1 h2
  constructor
  · have hc : callApi oracle (fuel + 1) ([t, t].map preprocessText) st.api =
        some (.ok [a, b], ⟨st.api.requests ++ [[t, t].map preprocessText],
          st.api.trace ++ [SleepEv.request]⟩) :=
      callApiGo_ok_step oracle fuel 9 ([t, t].map preprocessText) [a, b] st.api h2 rfl
    have h := translateBatch_allMiss_ok oracle (fuel + 1) [t, t] [a, b] lang st _ (by simp)
      (by intro x hx
          simp only [List.map_cons, List.map_nil, List.mem_cons, List.mem_singleton,
            List.not_mem_nil, or_false] at hx
          rcases hx with hx | hx <;> (subst hx; exact h1)) hc rfl
    simpa [storeAll] using h
  · simp [cacheLookup]

/-- Witness for C10: a concrete duplicated input ["x", "x"] — one remote
request containing both occurrences, positional results [some "A", some "B"],
and the cache ending at "B", the last occurrence's translation. -/
theorem C10_duplicates_no_dedup_witness :
    translateBatch (fun _ _ => RemoteResp.ok ["A", "B"]) 1 ["x", "x"] "L" initTrans =
      some (.ok [some "A", some "B"],
        ⟨[(("x", "L"), "B"), (("x", "L"), "A")], ⟨[["x", "x"]], [SleepEv.request]⟩⟩)
    ∧ cacheLookup [(("x", "L"), "B"), (("x", "L"), "A")] ("x", "L") = some "B" :=
  C10_duplicates_no_dedup "x" "L" "A" "B" initTrans 0
    (fun _ _ => RemoteResp.ok ["A", "B"]) rfl rfl
